import Mathlib

/-!
Verification of the per-auction decision engine of `auction_keeper/main.py`
(the `AuctionKeeper` class).  The decision logic of `check_auction` and the
scan loop `check_all_auctions` are embedded as pure Lean functions; on-chain
amounts (`Wad` fixed-point values at the external `pymaker` boundary) are
modelled as exact rationals, timestamps and addresses as naturals, and the
Python divisions — which raise `ZeroDivisionError` on a zero divisor — as
`Except`-valued operations.
-/

namespace AuctionKeeper

/-- An Ethereum address (`pymaker.Address` at the external boundary). -/
abbrev Address := ℕ

/-- One auction's on-chain snapshot, as produced by
`FlopperStrategy.get_input` (spec §3 `AuctionInput`): `bid` and `lot` are
amounts, `guy` the current holder, `tic` the bid expiry (0 when no bid yet)
and `end_` the hard deadline (`end` in the source, renamed because `end` is
a Lean keyword). -/
structure AuctionInput where
  bid : ℚ
  lot : ℚ
  guy : Address
  tic : ℕ
  end_ : ℕ
deriving DecidableEq, Repr

/-- Modelled from the spec: `ModelOutput` lives in `auction_keeper/logic.py`,
which is not among the given source files.  Spec §3: an optional suggestion
holding a `price` and a `gasPrice`. -/
structure ModelOutput where
  price : ℚ
  gasPrice : ℚ
deriving DecidableEq, Repr

/-- Modelled from the spec: the gas-price strategies passed to `transact`.
`defaultGas` is `pymaker.gas.DefaultGasPrice` (the node's default, holding
no value), `fixedGas` is `pymaker.gas.FixedGasPrice` (spec §3: "a fixed
value"), and `updatableGas` is `UpdatableGasPrice` from
`auction_keeper/gas.py` (spec §3: "a value that can be refreshed from the
latest model suggestion"), seeded with its initial value. -/
inductive GasStrategy where
  | defaultGas
  | fixedGas (value : ℚ)
  | updatableGas (value : ℚ)
deriving DecidableEq, Repr

/-- Following the spec's words (§3 `GasPriceStrategy`): a strategy "holding
one fixed value", i.e. the `FixedGasPrice` alternative. -/
def holdsOneFixedValue : GasStrategy → Bool
  | GasStrategy.fixedGas _ => true
  | _ => false

/-- A transaction submitted by `check_auction`: `deal` settles a finished
auction, `dent` places a bid of `ourLot`/`bid`.  Each carries the gas-price
strategy its `transact` call was given. -/
inductive Action where
  | deal (id : ℕ) (gas : GasStrategy)
  | dent (id : ℕ) (ourLot : ℚ) (bid : ℚ) (gas : GasStrategy)
deriving DecidableEq, Repr

/-- A fault raised during an evaluation.  The only fault the embedded
decision logic itself can raise is Python's `ZeroDivisionError`, from
`input.bid / input.lot` or `input.bid / our_price` on a zero divisor. -/
inductive Fault where
  | zeroDivision
deriving DecidableEq, Repr

/-- Decidable equality of `Except` results, so that concrete evaluations of
the embedded code can be checked by `decide`. -/
instance {ε α : Type} [DecidableEq ε] [DecidableEq α] :
    DecidableEq (Except ε α) := fun x y =>
  match x, y with
  | Except.ok a, Except.ok b => decidable_of_iff (a = b) (by simp)
  | Except.error a, Except.error b => decidable_of_iff (a = b) (by simp)
  | Except.ok _, Except.error _ => isFalse (fun h => Except.noConfusion h)
  | Except.error _, Except.ok _ => isFalse (fun h => Except.noConfusion h)

/-- Python `/` on `Wad` values: raises `ZeroDivisionError` on a zero
divisor, otherwise exact division (the `Wad` fixed-point truncation at the
external boundary is idealised to exact rational division). -/
def wadDiv (a b : ℚ) : Except Fault ℚ :=
  if b = 0 then Except.error Fault.zeroDivision else Except.ok (a / b)

/-- Line 106 of `main.py`:
`auction_finished = (input.tic < self.flopper.era() and input.tic != 0) or (input.end < self.flopper.era())`,
with the two `era()` reads modelled as the single `era` input the spec gives
the decision engine (§3 `ChainTime`, §4.4). -/
def auctionFinished (input : AuctionInput) (era : ℕ) : Bool :=
  (decide (input.tic < era) && decide (input.tic ≠ 0)) || decide (input.end_ < era)

/-- The decision part of `AuctionKeeper.check_auction` (`main.py` lines
106–131): given our address, the minimum-increment factor `beg`, the chain
time `era`, the snapshot, the latest model output and the auction id, it
returns the list of transactions submitted, or the fault that aborted the
evaluation.  The structure mirrors the source: the `finished` branch deals
with the default gas price when we hold the auction; the not-finished,
not-ours branch computes `auction_price = bid / lot` before consulting the
model output, then bids `our_lot = bid / our_price` when
`our_price >= auction_price * beg`. -/
def checkAuction (ourAddress : Address) (beg : ℚ) (era : ℕ)
    (input : AuctionInput) (output : Option ModelOutput) (id : ℕ) :
    Except Fault (List Action) :=
  if auctionFinished input era then
    if input.guy = ourAddress then
      Except.ok [Action.deal id GasStrategy.defaultGas]
    else
      Except.ok []
  else
    if input.guy = ourAddress then
      Except.ok []
    else
      match wadDiv input.bid input.lot with
      | Except.error e => Except.error e
      | Except.ok auctionPrice =>
        let auctionPriceMinIncrement := auctionPrice * beg
        match output with
        | none => Except.ok []
        | some o =>
          if auctionPriceMinIncrement ≤ o.price then
            match wadDiv input.bid o.price with
            | Except.error e => Except.error e
            | Except.ok ourLot =>
              Except.ok [Action.dent id ourLot input.bid
                (GasStrategy.updatableGas o.gasPrice)]
          else
            Except.ok []

/-- The transactions an evaluation submitted: a faulted evaluation raised
before reaching any `transact` call, so it submitted none. -/
def submitted : Except Fault (List Action) → List Action
  | Except.ok l => l
  | Except.error _ => []

/-- Evaluation of `check_auction` in the finished-and-ours quadrant: exactly one `deal`
with the default gas price. -/
lemma checkAuction_finished_ours {ourAddress : Address} {beg : ℚ} {era : ℕ}
    {input : AuctionInput} {output : Option ModelOutput} {id : ℕ}
    (hf : auctionFinished input era = true) (hg : input.guy = ourAddress) :
    checkAuction ourAddress beg era input output id =
      Except.ok [Action.deal id GasStrategy.defaultGas] := by
  simp [checkAuction, hf, hg]

/-- Evaluation of `check_auction` in the finished-but-not-ours quadrant: no action. -/
lemma checkAuction_finished_notOurs {ourAddress : Address} {beg : ℚ} {era : ℕ}
    {input : AuctionInput} {output : Option ModelOutput} {id : ℕ}
    (hf : auctionFinished input era = true) (hg : ¬ input.guy = ourAddress) :
    checkAuction ourAddress beg era input output id = Except.ok [] := by
  simp [checkAuction, hf, hg]

/-- Evaluation of `check_auction` in the not-finished-and-ours quadrant: no action. -/
lemma checkAuction_notFinished_ours {ourAddress : Address} {beg : ℚ} {era : ℕ}
    {input : AuctionInput} {output : Option ModelOutput} {id : ℕ}
    (hf : auctionFinished input era = false) (hg : input.guy = ourAddress) :
    checkAuction ourAddress beg era input output id = Except.ok [] := by
  simp [checkAuction, hf, hg]

/-- Evaluation of `check_auction` in the not-finished, not-ours quadrant with no model
output: `bid / lot` still faults on `lot = 0` (it is computed before the
model is consulted), otherwise no action. -/
lemma checkAuction_bid_none {ourAddress : Address} {beg : ℚ}
    {era : ℕ} {input : AuctionInput} {id : ℕ}
    (hf : auctionFinished input era = false) (hg : ¬ input.guy = ourAddress) :
    checkAuction ourAddress beg era input none id =
      if input.lot = 0 then Except.error Fault.zeroDivision
      else Except.ok [] := by
  by_cases hl : input.lot = 0
  · simp [checkAuction, wadDiv, hf, hg, hl]
  · simp [checkAuction, wadDiv, hf, hg, hl]

/-- Evaluation of `check_auction` in the not-finished, not-ours quadrant with a model
output present, fully unfolded: `bid / lot` faults on `lot = 0`; a price
below `(bid / lot) * beg` means no action; otherwise `bid / price` faults
on `price = 0`, else a single `dent` is submitted. -/
lemma checkAuction_bid_some {ourAddress : Address} {beg : ℚ}
    {era : ℕ} {input : AuctionInput} {o : ModelOutput} {id : ℕ}
    (hf : auctionFinished input era = false) (hg : ¬ input.guy = ourAddress) :
    checkAuction ourAddress beg era input (some o) id =
      if input.lot = 0 then Except.error Fault.zeroDivision
      else if input.bid / input.lot * beg ≤ o.price then
        if o.price = 0 then Except.error Fault.zeroDivision
        else Except.ok [Action.dent id (input.bid / o.price) input.bid
          (GasStrategy.updatableGas o.gasPrice)]
      else Except.ok [] := by
  by_cases hl : input.lot = 0
  · simp [checkAuction, wadDiv, hf, hg, hl]
  · by_cases hmin : input.bid / input.lot * beg ≤ o.price
    · by_cases hp : o.price = 0
      · rw [if_neg hl, if_pos hmin, if_pos hp]
        simp [checkAuction, wadDiv, hf, hg, hl, hp, hp ▸ hmin]
      · rw [if_neg hl, if_pos hmin, if_neg hp]
        simp [checkAuction, wadDiv, hf, hg, hl, hmin, hp]
    · rw [if_neg hl, if_neg hmin]
      simp [checkAuction, wadDiv, hf, hg, hl, hmin]

/-- Every list of actions an evaluation can return is `[]`, a single `deal`
with default gas, or a single `dent` carrying the model's values. -/
lemma checkAuction_ok_shape {ourAddress : Address} {beg : ℚ} {era : ℕ}
    {input : AuctionInput} {output : Option ModelOutput} {id : ℕ}
    {l : List Action}
    (h : checkAuction ourAddress beg era input output id = Except.ok l) :
    l = [] ∨
      (l = [Action.deal id GasStrategy.defaultGas] ∧
        auctionFinished input era = true ∧ input.guy = ourAddress) ∨
      (∃ o, output = some o ∧
        l = [Action.dent id (input.bid / o.price) input.bid
          (GasStrategy.updatableGas o.gasPrice)] ∧
        auctionFinished input era = false ∧ ¬ input.guy = ourAddress ∧
        input.lot ≠ 0 ∧ o.price ≠ 0 ∧
        input.bid / input.lot * beg ≤ o.price) := by
  rcases hb : auctionFinished input era with _ | _
  · by_cases hg : input.guy = ourAddress
    · rw [checkAuction_notFinished_ours hb hg] at h
      injection h with h
      exact Or.inl h.symm
    · by_cases hl : input.lot = 0
      · cases ho : output with
        | none =>
          rw [ho, checkAuction_bid_none hb hg, if_pos hl] at h
          exact absurd h (by simp)
        | some o =>
          rw [ho, checkAuction_bid_some hb hg, if_pos hl] at h
          exact absurd h (by simp)
      · cases ho : output with
        | none =>
          rw [ho, checkAuction_bid_none hb hg, if_neg hl] at h
          injection h with h
          exact Or.inl h.symm
        | some o =>
          rw [ho, checkAuction_bid_some hb hg, if_neg hl] at h
          by_cases hmin : input.bid / input.lot * beg ≤ o.price
          · by_cases hp : o.price = 0
            · rw [if_pos hmin, if_pos hp] at h
              exact absurd h (by simp)
            · rw [if_pos hmin, if_neg hp] at h
              injection h with h
              exact Or.inr (Or.inr ⟨o, rfl, h.symm, rfl, hg, hl, hp, hmin⟩)
          · rw [if_neg hmin] at h
            injection h with h
            exact Or.inl h.symm
  · by_cases hg : input.guy = ourAddress
    · rw [checkAuction_finished_ours hb hg] at h
      injection h with h
      exact Or.inr (Or.inl ⟨h.symm, rfl, hg⟩)
    · rw [checkAuction_finished_notOurs hb hg] at h
      injection h with h
      exact Or.inl h.symm

/-- C1: the finished predicate of `check_auction` equals
`(bidExpiry ≠ 0 ∧ bidExpiry < era) ∨ hardDeadline < era`: both comparisons
are strict, a zero `bidExpiry` never finishes the auction by itself, and a
passed hard deadline finishes it regardless of `bidExpiry`. -/
theorem auctionFinished_spec (input : AuctionInput) (era : ℕ) :
    auctionFinished input era = true ↔
      ((input.tic ≠ 0 ∧ input.tic < era) ∨ input.end_ < era) := by
  simp [auctionFinished, and_comm]

/-- C2: one evaluation emits a `deal` (Settle) if and only if the auction is
finished and we hold it; a finished auction held by someone else, and a
running auction we already lead, both produce no action at all. -/
theorem checkAuction_settle_iff (ourAddress : Address) (beg : ℚ) (era : ℕ)
    (input : AuctionInput) (output : Option ModelOutput) (id : ℕ) :
    ((∃ l g, checkAuction ourAddress beg era input output id = Except.ok l ∧
        Action.deal id g ∈ l) ↔
      (auctionFinished input era = true ∧ input.guy = ourAddress)) ∧
    (auctionFinished input era = true → input.guy ≠ ourAddress →
      checkAuction ourAddress beg era input output id = Except.ok []) ∧
    (auctionFinished input era = false → input.guy = ourAddress →
      checkAuction ourAddress beg era input output id = Except.ok []) := by
  refine ⟨⟨?_, ?_⟩, ?_, ?_⟩
  · rintro ⟨l, g, h, hmem⟩
    rcases checkAuction_ok_shape h with h0 | ⟨h1, hfin, hg⟩ | ⟨o, _, h2, _, _, _⟩
    · subst h0; simp at hmem
    · exact ⟨hfin, hg⟩
    · subst h2; simp at hmem
  · rintro ⟨hf, hg⟩
    exact ⟨[Action.deal id GasStrategy.defaultGas], GasStrategy.defaultGas,
      checkAuction_finished_ours hf hg, by simp⟩
  · intro hf hg
    exact checkAuction_finished_notOurs hf hg
  · intro hf hg
    exact checkAuction_notFinished_ours hf hg

/-- C9: the finished and not-finished branches are mutually exclusive, so
one evaluation submits at most one transaction, and never both a `deal` and
a `dent`. -/
theorem checkAuction_atMostOneAction (ourAddress : Address) (beg : ℚ)
    (era : ℕ) (input : AuctionInput) (output : Option ModelOutput) (id : ℕ) :
    (submitted (checkAuction ourAddress beg era input output id)).length ≤ 1 ∧
    ∀ g ourLot b g',
      ¬ (Action.deal id g ∈ submitted (checkAuction ourAddress beg era input output id) ∧
         Action.dent id ourLot b g' ∈
           submitted (checkAuction ourAddress beg era input output id)) := by
  cases h : checkAuction ourAddress beg era input output id with
  | error e => simp [submitted]
  | ok l =>
    rcases checkAuction_ok_shape h with h0 | ⟨h1, _, _⟩ | ⟨o, _, h2, _, _, _⟩
    · subst h0; simp [submitted]
    · subst h1; simp [submitted]
    · subst h2; simp [submitted]

/-- C3: in the not-finished, not-ours quadrant (with the divisors the code
divides by nonzero, as claim C10 records), a `dent` (Bid) is emitted exactly
when a model output is present and its price reaches
`(bid / lot) * minIncrementFactor`; an absent output and a price below the
threshold both yield no action rather than an error. -/
theorem checkAuction_bid_iff (ourAddress : Address) (beg : ℚ) (era : ℕ)
    (input : AuctionInput) (output : Option ModelOutput) (id : ℕ)
    (hf : auctionFinished input era = false)
    (hg : input.guy ≠ ourAddress)
    (hl : input.lot ≠ 0)
    (hp : ∀ o, output = some o → o.price ≠ 0) :
    ((∃ ourLot b g l,
        checkAuction ourAddress beg era input output id = Except.ok l ∧
        Action.dent id ourLot b g ∈ l) ↔
      (∃ o, output = some o ∧ input.bid / input.lot * beg ≤ o.price)) ∧
    (output = none →
      checkAuction ourAddress beg era input output id = Except.ok []) ∧
    (∀ o, output = some o → o.price < input.bid / input.lot * beg →
      checkAuction ourAddress beg era input output id = Except.ok []) := by
  have hgg : ¬ input.guy = ourAddress := hg
  cases output with
  | none =>
    refine ⟨⟨?_, ?_⟩, ?_, ?_⟩
    · rintro ⟨ourLot, b, g, l, h, hmem⟩
      rw [checkAuction_bid_none hf hgg, if_neg hl] at h
      injection h with h
      subst h
      simp at hmem
    · rintro ⟨o, ho, _⟩
      cases ho
    · intro _
      rw [checkAuction_bid_none hf hgg, if_neg hl]
    · intro o ho
      cases ho
  | some o =>
    have hpo : o.price ≠ 0 := hp o rfl
    refine ⟨⟨?_, ?_⟩, ?_, ?_⟩
    · rintro ⟨ourLot, b, g, l, h, hmem⟩
      rw [checkAuction_bid_some hf hgg, if_neg hl] at h
      by_cases hmin : input.bid / input.lot * beg ≤ o.price
      · exact ⟨o, rfl, hmin⟩
      · rw [if_neg hmin] at h
        injection h with h
        subst h
        simp at hmem
    · rintro ⟨o', ho', hmin⟩
      injection ho' with ho'
      subst ho'
      refine ⟨input.bid / o.price, input.bid,
        GasStrategy.updatableGas o.gasPrice, _, ?_,
        List.mem_singleton_self _⟩
      rw [checkAuction_bid_some hf hgg, if_neg hl, if_pos hmin, if_neg hpo]
    · intro h
      cases h
    · intro o' ho' hlt
      injection ho' with ho'
      subst ho'
      rw [checkAuction_bid_some hf hgg, if_neg hl, if_neg (not_le.mpr hlt)]

/-- C3 witness: Scenario A of spec §8 — `bid = 100`, `lot = 10`, a running
auction held by someone else, `beg = 1.05`, model price `12 ≥ 10.5`: a Bid
is emitted. -/
theorem checkAuction_bid_iff_witness :
    ∃ ourLot b g l,
      checkAuction 1 (21/20) 500
        (AuctionInput.mk 100 10 2 0 1000) (some (ModelOutput.mk 12 5)) 7 =
        Except.ok l ∧
      Action.dent 7 ourLot b g ∈ l :=
  (checkAuction_bid_iff 1 (21/20) 500
    (AuctionInput.mk 100 10 2 0 1000) (some (ModelOutput.mk 12 5)) 7
    (by decide) (by decide) (by decide)
    (by intro o ho; injection ho with ho; subst ho; decide)).1.mpr
    ⟨ModelOutput.mk 12 5, rfl, by norm_num⟩

/-- C4: every emitted `dent` carries `ourLot = bid / modelOutput.price`, the
snapshot's unchanged `bid`, and an updatable gas-price strategy seeded from
`modelOutput.gasPrice`. -/
theorem checkAuction_dent_shape (ourAddress : Address) (beg : ℚ) (era : ℕ)
    (input : AuctionInput) (output : Option ModelOutput) (id : ℕ)
    (ourLot b : ℚ) (g : GasStrategy) (l : List Action)
    (h : checkAuction ourAddress beg era input output id = Except.ok l)
    (hmem : Action.dent id ourLot b g ∈ l) :
    ∃ o, output = some o ∧ ourLot = input.bid / o.price ∧ b = input.bid ∧
      g = GasStrategy.updatableGas o.gasPrice := by
  rcases checkAuction_ok_shape h with h0 | ⟨h1, _, _⟩ | ⟨o, ho, h2, _, _, _, _, _⟩
  · subst h0; simp at hmem
  · subst h1; simp at hmem
  · subst h2
    simp only [List.mem_singleton, Action.dent.injEq] at hmem
    exact ⟨o, ho, hmem.2.1, hmem.2.2.1, hmem.2.2.2⟩

/-- C4 witness: Scenario A of spec §8 concretely — the emitted Bid has
`ourLot = 100 / 12 = 25/3 ≈ 8.33`, `bid = 100`, and its gas strategy is
updatable, seeded from the model's gas price. -/
theorem checkAuction_dent_shape_witness :
    ∃ o, (some (ModelOutput.mk 12 5)) = some o ∧
      (25/3 : ℚ) = (100 : ℚ) / o.price ∧ (100 : ℚ) = (100 : ℚ) ∧
      GasStrategy.updatableGas 5 = GasStrategy.updatableGas o.gasPrice :=
  checkAuction_dent_shape 1 (21/20) 500
    (AuctionInput.mk 100 10 2 0 1000) (some (ModelOutput.mk 12 5)) 7
    (25/3) 100 (GasStrategy.updatableGas 5)
    [Action.dent 7 (25/3) 100 (GasStrategy.updatableGas 5)]
    (by
      rw [checkAuction_bid_some (by decide) (by decide)]
      norm_num)
    (by simp)

/-- C5 counterexample: a finished auction we hold is settled with
`DefaultGasPrice()` (`main.py` line 113), which is not a strategy holding
one fixed value, contradicting the claim at this concrete input. -/
theorem settle_not_fixedGas_cex :
    checkAuction 1 (21/20) 500 (AuctionInput.mk 100 10 1 3 1000) none 7 =
      Except.ok [Action.deal 7 GasStrategy.defaultGas] ∧
    holdsOneFixedValue GasStrategy.defaultGas = false :=
  ⟨checkAuction_finished_ours (by decide) rfl, rfl⟩

/-- C5 amended: every `deal` (Settle) is submitted with the default
gas-price strategy — which holds no value and is not the updatable strategy
used for bids — rather than a fixed-value strategy. -/
theorem checkAuction_deal_gas (ourAddress : Address) (beg : ℚ) (era : ℕ)
    (input : AuctionInput) (output : Option ModelOutput) (id : ℕ)
    (g : GasStrategy) (l : List Action)
    (h : checkAuction ourAddress beg era input output id = Except.ok l)
    (hmem : Action.deal id g ∈ l) :
    g = GasStrategy.defaultGas := by
  rcases checkAuction_ok_shape h with h0 | ⟨h1, _, _⟩ | ⟨o, _, h2, _, _, _⟩
  · subst h0; simp at hmem
  · subst h1
    simp only [List.mem_singleton, Action.deal.injEq] at hmem
    exact hmem.2
  · subst h2; simp at hmem

/-- C5 amended witness: the settlement emitted for a concrete finished
auction we hold carries the default gas-price strategy. -/
theorem checkAuction_deal_gas_witness :
    GasStrategy.defaultGas = GasStrategy.defaultGas :=
  checkAuction_deal_gas 1 (21/20) 500 (AuctionInput.mk 100 10 1 3 1000)
    none 7 GasStrategy.defaultGas [Action.deal 7 GasStrategy.defaultGas]
    (checkAuction_finished_ours (by decide) rfl) (by simp)

/-- C8: the evaluation is deterministic — two evaluations given equal
inputs (same snapshot, era, identity, minimum-increment factor, latest
model output and id) produce the same decision. -/
theorem checkAuction_deterministic (a a' : Address) (b b' : ℚ) (e e' : ℕ)
    (i i' : AuctionInput) (o o' : Option ModelOutput) (n n' : ℕ)
    (ha : a = a') (hb : b = b') (he : e = e') (hi : i = i') (ho : o = o')
    (hn : n = n') :
    checkAuction a b e i o n = checkAuction a' b' e' i' o' n' := by
  subst ha hb he hi ho hn
  rfl

/-- C8 witness: two evaluations of one concrete unchanged snapshot agree. -/
theorem checkAuction_deterministic_witness :
    checkAuction 1 (21/20) 500 (AuctionInput.mk 100 10 2 0 1000) none 7 =
      checkAuction 1 (21/20) 500 (AuctionInput.mk 100 10 2 0 1000) none 7 :=
  checkAuction_deterministic 1 1 (21/20) (21/20) 500 500
    (AuctionInput.mk 100 10 2 0 1000) (AuctionInput.mk 100 10 2 0 1000)
    none none 7 7 rfl rfl rfl rfl rfl rfl

/-- C10 counterexample: a present model output with `price = 0` does not
always fault — here `0 < (100/10) * (21/20)`, so the threshold check fails
first and the evaluation returns no action. -/
theorem priceZero_noFault_cex :
    checkAuction 1 (21/20) 500 (AuctionInput.mk 100 10 2 0 1000)
      (some (ModelOutput.mk 0 5)) 7 = Except.ok [] := by
  rw [checkAuction_bid_some (by decide) (by decide)]
  norm_num

/-- C10 amended: in the not-finished, not-ours quadrant, `lot = 0` always
faults with a `ZeroDivisionError` (the divisions are unguarded); under
`lot ≠ 0` and a nonzero present model price the evaluation is total; a
present model price of `0` faults exactly when it passes the threshold
check, i.e. when `(bid / lot) * beg ≤ 0`, and otherwise yields no action. -/
theorem checkAuction_totality (ourAddress : Address) (beg : ℚ) (era : ℕ)
    (input : AuctionInput) (output : Option ModelOutput) (id : ℕ)
    (hf : auctionFinished input era = false)
    (hg : input.guy ≠ ourAddress) :
    (input.lot = 0 →
      checkAuction ourAddress beg era input output id =
        Except.error Fault.zeroDivision) ∧
    (input.lot ≠ 0 → (∀ o, output = some o → o.price ≠ 0) →
      ∃ l, checkAuction ourAddress beg era input output id = Except.ok l) ∧
    (∀ o, output = some o → o.price = 0 → input.lot ≠ 0 →
      (input.bid / input.lot * beg ≤ 0 →
        checkAuction ourAddress beg era input output id =
          Except.error Fault.zeroDivision) ∧
      (0 < input.bid / input.lot * beg →
        checkAuction ourAddress beg era input output id = Except.ok [])) := by
  have hgg : ¬ input.guy = ourAddress := hg
  cases output with
  | none =>
    refine ⟨?_, ?_, ?_⟩
    · intro hl
      rw [checkAuction_bid_none hf hgg, if_pos hl]
    · intro hl _
      exact ⟨[], by rw [checkAuction_bid_none hf hgg, if_neg hl]⟩
    · intro o ho
      cases ho
  | some o =>
    refine ⟨?_, ?_, ?_⟩
    · intro hl
      rw [checkAuction_bid_some hf hgg, if_pos hl]
    · intro hl hp
      have hpo : o.price ≠ 0 := hp o rfl
      by_cases hmin : input.bid / input.lot * beg ≤ o.price
      · exact ⟨_, by
          rw [checkAuction_bid_some hf hgg, if_neg hl, if_pos hmin,
            if_neg hpo]⟩
      · exact ⟨[], by
          rw [checkAuction_bid_some hf hgg, if_neg hl, if_neg hmin]⟩
    · intro o' ho' hpz hl
      injection ho' with ho'
      subst ho'
      constructor
      · intro hle
        rw [checkAuction_bid_some hf hgg, if_neg hl,
          if_pos (by rw [hpz]; exact hle), if_pos hpz]
      · intro hpos
        rw [checkAuction_bid_some hf hgg, if_neg hl,
          if_neg (by rw [hpz]; exact not_le.mpr hpos)]

/-- C10 amended witness: a concrete snapshot with `lot = 0`, not finished
and held by someone else, faults with a `ZeroDivisionError` even though no
model output is present. -/
theorem checkAuction_totality_witness :
    checkAuction 1 (21/20) 500 (AuctionInput.mk 100 0 2 0 1000) none 3 =
      Except.error Fault.zeroDivision :=
  (checkAuction_totality 1 (21/20) 500 (AuctionInput.mk 100 0 2 0 1000)
    none 3 (by decide) (by decide)).1 rfl

/-- Modelled from the spec: the Auction Registry (`Auctions.get_auction` in
`auction_keeper/logic.py` is not among the given source files).  Spec §4.1:
`getOrCreate(id)` returns the one `AuctionState` of `id`, creating it on
first access; no removal operation exists.  The registry is modelled by the
list of ids created so far. -/
def getOrCreate (reg : List ℕ) (id : ℕ) : List ℕ :=
  if id ∈ reg then reg else reg ++ [id]

/-- Membership in the registry after a get-or-create. -/
lemma mem_getOrCreate {reg : List ℕ} {id a : ℕ} :
    a ∈ getOrCreate reg id ↔ a ∈ reg ∨ a = id := by
  by_cases h : id ∈ reg
  · simp only [getOrCreate, if_pos h]
    exact ⟨Or.inl, fun x => x.elim (fun y => y) (fun e => e ▸ h)⟩
  · simp [getOrCreate, if_neg h]

/-- The keeper's environment for one scan: our identity, the contract
parameters read each block (`beg`, `era`, and `kicks`, the total auction
count), and per id the snapshot `FlopperStrategy.get_input` returns and the
latest model output the id's auction state holds. -/
structure KeeperEnv where
  ourAddress : Address
  beg : ℚ
  era : ℕ
  kicks : ℕ
  input : ℕ → AuctionInput
  output : ℕ → Option ModelOutput

/-- One `check_auction(id)` call made by the scan: the id's state is
obtained through the registry's get-or-create and the decision logic runs
on the id's snapshot and latest model output. -/
def checkOne (env : KeeperEnv) (id : ℕ) : Except Fault (List Action) :=
  checkAuction env.ourAddress env.beg env.era (env.input id) (env.output id) id

/-- The scan over a list of ids, mirroring the `for` loop of
`check_all_auctions` (`main.py` lines 85–87): each id is entered into the
registry and evaluated in turn.  The loop body has no exception handler, so
a fault propagates out of the loop and the remaining ids are not evaluated.
Returns the final registry, the ids evaluated (in order) and the fault that
aborted the scan, if any. -/
def scanFrom (env : KeeperEnv) (reg : List ℕ) :
    List ℕ → List ℕ × List ℕ × Option Fault
  | [] => (reg, [], none)
  | id :: rest =>
    match checkOne env id with
    | Except.error e => (getOrCreate reg id, [id], some e)
    | Except.ok _ =>
      ((scanFrom env (getOrCreate reg id) rest).1,
        id :: (scanFrom env (getOrCreate reg id) rest).2.1,
        (scanFrom env (getOrCreate reg id) rest).2.2)

/-- Lines 85–87 of `main.py`:
`for auction_id in range(1, self.flopper.kicks()+1): self.check_auction(auction_id)`,
starting from an empty registry; `range(1, kicks+1)` enumerates the
identifiers `1` through `kicks` inclusive, i.e. `List.range' 1 kicks`. -/
def checkAllAuctions (env : KeeperEnv) : List ℕ × List ℕ × Option Fault :=
  scanFrom env [] (List.range' 1 env.kicks)

/-- When every id in the list evaluates without a fault, the scan evaluates
exactly those ids in order, reports no fault, and its final registry keeps
everything already present plus every scanned id. -/
lemma scanFrom_noFault {env : KeeperEnv} {reg ids : List ℕ}
    (h : ∀ id ∈ ids, ∃ l, checkOne env id = Except.ok l) :
    (scanFrom env reg ids).2.1 = ids ∧
    (scanFrom env reg ids).2.2 = none ∧
    ∀ a, (a ∈ reg ∨ a ∈ ids) → a ∈ (scanFrom env reg ids).1 := by
  induction ids generalizing reg with
  | nil =>
    refine ⟨rfl, rfl, ?_⟩
    rintro a (ha | ha)
    · exact ha
    · simp at ha
  | cons id rest ih =>
    obtain ⟨l, hl⟩ := h id (by simp)
    have hrest : ∀ i ∈ rest, ∃ l, checkOne env i = Except.ok l :=
      fun i hi => h i (by simp [hi])
    obtain ⟨h1, h2, h3⟩ := @ih (getOrCreate reg id) hrest
    refine ⟨by simp [scanFrom, hl, h1], by simp [scanFrom, hl, h2], ?_⟩
    intro a ha
    simp only [scanFrom, hl]
    apply h3
    rcases ha with ha | ha
    · exact Or.inl (mem_getOrCreate.mpr (Or.inl ha))
    · rcases List.mem_cons.mp ha with rfl | ha
      · exact Or.inl (mem_getOrCreate.mpr (Or.inr rfl))
      · exact Or.inr ha

/-- C7: when no per-id evaluation faults, one scan on a new chain head
evaluates exactly the identifiers `1` through `kicks` inclusive, in order,
and every one of them has been entered into the registry by its
get-or-create access. -/
theorem checkAllAuctions_scope (env : KeeperEnv)
    (h : ∀ id ∈ List.range' 1 env.kicks, ∃ l, checkOne env id = Except.ok l) :
    (checkAllAuctions env).2.1 = List.range' 1 env.kicks ∧
    (checkAllAuctions env).2.2 = none ∧
    ∀ id ∈ List.range' 1 env.kicks, id ∈ (checkAllAuctions env).1 := by
  obtain ⟨h1, h2, h3⟩ := @scanFrom_noFault env [] (List.range' 1 env.kicks) h
  exact ⟨h1, h2, fun id hid => h3 id (Or.inr hid)⟩

/-- A benign two-auction environment: both snapshots are running auctions
held by someone else with no model output, so every evaluation is a
faultless no-action. -/
def envBenign : KeeperEnv :=
  KeeperEnv.mk 1 (21/20) 500 2
    (fun _ => AuctionInput.mk 100 10 2 0 1000) (fun _ => none)

/-- C7 witness: over the benign two-auction environment the scan evaluates
exactly the identifiers 1 and 2 and reports no fault. -/
theorem checkAllAuctions_scope_witness :
    (checkAllAuctions envBenign).2.1 = [1, 2] ∧
    (checkAllAuctions envBenign).2.2 = none := by
  obtain ⟨h1, h2, _⟩ := checkAllAuctions_scope envBenign (by
    intro id hid
    refine ⟨[], ?_⟩
    show checkAuction 1 (21/20) 500 (AuctionInput.mk 100 10 2 0 1000)
      none id = Except.ok []
    rw [checkAuction_bid_none (by decide) (by decide)]
    norm_num)
  exact ⟨by rw [h1]; rfl, h2⟩

/-- A two-auction environment whose first snapshot has `lot = 0`: its
evaluation raises `ZeroDivisionError` inside the scan loop. -/
def envFaulty : KeeperEnv :=
  KeeperEnv.mk 1 (21/20) 500 2
    (fun id => if id = 1 then AuctionInput.mk 100 0 2 0 1000
      else AuctionInput.mk 100 10 2 0 1000)
    (fun _ => none)

/-- C6: the loop of `check_all_auctions` has no exception handler, so the
fault raised while evaluating auction 1 aborts the scan and auction 2 is
never evaluated — the remaining identifiers of the same scan are lost. -/
theorem scanAbortsOnFault :
    (checkAllAuctions envFaulty).2.1 = [1] ∧
    (checkAllAuctions envFaulty).2.2 = some Fault.zeroDivision ∧
    2 ∉ (checkAllAuctions envFaulty).2.1 := by
  have h1 : checkOne envFaulty 1 = Except.error Fault.zeroDivision := by
    show checkAuction 1 (21/20) 500 (AuctionInput.mk 100 0 2 0 1000)
      none 1 = Except.error Fault.zeroDivision
    rw [checkAuction_bid_none (by decide) (by decide)]
    norm_num
  have hscan : checkAllAuctions envFaulty =
      (getOrCreate [] 1, [1], some Fault.zeroDivision) := by
    show scanFrom envFaulty [] (List.range' 1 envFaulty.kicks) = _
    have hr : List.range' 1 envFaulty.kicks = [1, 2] := rfl
    rw [hr]
    simp [scanFrom, h1]
  refine ⟨by rw [hscan], by rw [hscan], by rw [hscan]; simp⟩

end AuctionKeeper
